import Mathlib

/-
  Verification of the adsb-data-logger ingest-cache-reconcile-upload pipeline.

  Shallow embedding of `src/adsb_logger.py`:
  - `TTLCache` (lines 743-841): bounded, insertion-ordered key-value store
    with per-entry expiry.  `OrderedDict` + `timestamps` are modelled as one
    list of `Entry` values kept in insertion order; assigning to an existing
    key keeps its position (OrderedDict semantics), a fresh key is appended.
  - `CircuitBreaker` (lines 949-999).
  - `AircraftRegistryCache` (lines 844-946).
  - the main reconciliation cycle of `ADSBLogger.run` (lines 1304-1459).

  Time is modelled as a `Nat` passed explicitly where the source calls
  `time.time()`.  Python comparisons on time differences, e.g.
  `now - ts > ttl`, are rendered in subtraction-free form `ts + ttl < now`,
  which is equivalent over the integers.
-/

namespace ADSB

/-! ### Configuration defaults (`Config.__init__`, lines 27-35) -/

def SUMMARY_UPLOAD_INTERVAL : Nat := 300
def MAX_CACHE_SIZE : Nat := 200
def CACHE_TTL_SECONDS : Nat := 3600
def AIRCRAFT_CSV_TTL_SECONDS : Nat := 86400
def CIRCUIT_BREAKER_THRESHOLD : Nat := 5
def CIRCUIT_BREAKER_TIMEOUT : Nat := 60

/-! ### TTL cache (lines 743-841) -/

/-- One cache binding: key, stored value, and the timestamp written by the
last `put` of this key. -/
structure Entry (V : Type) where
  key : String
  value : V
  stamp : Nat
deriving Repr, DecidableEq

structure TTLCache (V : Type) where
  entries : List (Entry V)
  max_size : Nat
  ttl : Nat
deriving Repr, DecidableEq

/-- `__init__` (lines 746-751): `max_size or config.MAX_CACHE_SIZE` and
`ttl_seconds or config.CACHE_TTL_SECONDS` — a falsy argument (0 / None)
falls back to the configured default. -/
def TTLCache.init (V : Type) (maxSize ttlSeconds : Nat) : TTLCache V :=
  { entries := []
    max_size := if maxSize = 0 then MAX_CACHE_SIZE else maxSize
    ttl := if ttlSeconds = 0 then CACHE_TTL_SECONDS else ttlSeconds }

/-- `current_time - timestamp > self.ttl`. -/
def expiredAt (ttl now : Nat) (e : Entry V) : Bool :=
  e.stamp + ttl < now

/-- Drop every expired entry (the purge loop shared by `cleanup_expired`,
`put`, `__len__` and `items`). -/
def purge (ttl now : Nat) (l : List (Entry V)) : List (Entry V) :=
  l.filter (fun e => !(expiredAt ttl now e))

/-- `while len(self.cache) >= self.max_size: self.cache.pop(next(iter(self.cache)))`
(lines 783-786).  `none` models the `StopIteration` raised by
`next(iter(self.cache))` when the loop runs on an empty dict, which happens
exactly when `maxSize = 0`. -/
def evictLoop (maxSize : Nat) : List (Entry V) → Option (List (Entry V))
  | [] => if maxSize = 0 then none else some []
  | e :: rest =>
      if maxSize ≤ (e :: rest).length then evictLoop maxSize rest
      else some (e :: rest)

/-- `self.cache[key] = value; self.timestamps[key] = time.time()`:
an existing key keeps its position in insertion order (OrderedDict
assignment), a fresh key is appended at the end. -/
def updateEntry (k : String) (v : V) (now : Nat) : List (Entry V) → List (Entry V)
  | [] => [⟨k, v, now⟩]
  | e :: rest => if e.key = k then ⟨k, v, now⟩ :: rest else e :: updateEntry k v now rest

/-- `put` (lines 768-789): purge expired entries, evict oldest-first while at
capacity, then insert/overwrite with a fresh timestamp.  `none` models the
`StopIteration` crash of the eviction loop (reachable only with
`max_size = 0`, which the constructor never produces). -/
def TTLCache.put (c : TTLCache V) (k : String) (v : V) (now : Nat) :
    Option (TTLCache V) :=
  match evictLoop c.max_size (purge c.ttl now c.entries) with
  | none => none
  | some l => some { c with entries := updateEntry k v now l }

/-- Total wrapper for `put`, used by the pipeline model; identical to `put`
whenever `put` does not crash (in particular whenever `1 ≤ max_size`). -/
def TTLCache.putT (c : TTLCache V) (k : String) (v : V) (now : Nat) : TTLCache V :=
  (c.put k v now).getD c

/-- First binding of `k`, i.e. the dict lookup (`key in self.cache`,
`self.cache[key]`, `self.timestamps[key]`). -/
def findKey (l : List (Entry V)) (k : String) : Option (Entry V) :=
  l.find? (fun e => e.key = k)

/-- `self.cache.pop(key, None); self.timestamps.pop(key, None)`. -/
def eraseKey (k : String) : List (Entry V) → List (Entry V)
  | [] => []
  | e :: rest => if e.key = k then rest else e :: eraseKey k rest

/-- `get` (lines 791-803): absent key returns `None`; an expired key is
physically removed and `None` is returned; otherwise the stored value is
returned and the cache is left unchanged. -/
def TTLCache.get (c : TTLCache V) (k : String) (now : Nat) :
    Option V × TTLCache V :=
  match findKey c.entries k with
  | none => (none, c)
  | some e =>
      if e.stamp + c.ttl < now then
        (none, { c with entries := eraseKey k c.entries })
      else
        (some e.value, c)

/-- `cleanup_expired` (lines 753-766): purge and report how many entries
were removed. -/
def TTLCache.cleanup_expired (c : TTLCache V) (now : Nat) : Nat × TTLCache V :=
  ((c.entries.filter (fun e => expiredAt c.ttl now e)).length,
   { c with entries := purge c.ttl now c.entries })

/-- `__len__` (lines 809-821): purge, then report the size. -/
def TTLCache.size (c : TTLCache V) (now : Nat) : Nat × TTLCache V :=
  ((purge c.ttl now c.entries).length, { c with entries := purge c.ttl now c.entries })

/-- `items` (lines 823-835): purge, then snapshot the live entries. -/
def TTLCache.items (c : TTLCache V) (now : Nat) :
    List (String × V) × TTLCache V :=
  ((purge c.ttl now c.entries).map (fun e => (e.key, e.value)),
   { c with entries := purge c.ttl now c.entries })

/-- Keys currently bound, in insertion order. -/
def keysOf (l : List (Entry V)) : List String :=
  l.map Entry.key

/-! ### Circuit breaker (lines 949-999) -/

inductive CBState where
  | CLOSED
  | OPEN
  | HALF_OPEN
deriving Repr, DecidableEq

structure CircuitBreaker where
  failure_threshold : Nat
  timeout : Nat
  failure_count : Nat
  last_failure_time : Option Nat
  state : CBState
deriving Repr, DecidableEq

/-- `__init__` (lines 952-958): `failure_threshold or config.CIRCUIT_BREAKER_THRESHOLD`
and `timeout or config.CIRCUIT_BREAKER_TIMEOUT` — a falsy argument (0 / None)
falls back to the configured default. -/
def CircuitBreaker.init (threshold timeoutSec : Nat) : CircuitBreaker :=
  { failure_threshold := if threshold = 0 then CIRCUIT_BREAKER_THRESHOLD else threshold
    timeout := if timeoutSec = 0 then CIRCUIT_BREAKER_TIMEOUT else timeoutSec
    failure_count := 0
    last_failure_time := none
    state := .CLOSED }

/-- The locked section at the top of `call` (lines 962-967): in `OPEN`
state, either move to `HALF_OPEN` (timeout elapsed) or refuse the call
(`none` models the raised "Circuit breaker is OPEN" exception).
`if self.last_failure_time and time.time() - self.last_failure_time > self.timeout`:
both `None` and `0` are falsy, and `now - t > timeout` is `t + timeout < now`. -/
def CircuitBreaker.gate (cb : CircuitBreaker) (now : Nat) : Option CircuitBreaker :=
  if cb.state = .OPEN then
    match cb.last_failure_time with
    | some t =>
        if t ≠ 0 ∧ t + cb.timeout < now then some { cb with state := .HALF_OPEN }
        else none
    | none => none
  else some cb

/-- `_on_success` (lines 977-981). -/
def CircuitBreaker.on_success (cb : CircuitBreaker) : CircuitBreaker :=
  { cb with failure_count := 0, state := .CLOSED }

/-- `_on_failure` (lines 983-989): `now` is the `time.time()` recorded as
the failure timestamp. -/
def CircuitBreaker.on_failure (cb : CircuitBreaker) (now : Nat) : CircuitBreaker :=
  { cb with
    failure_count := cb.failure_count + 1
    last_failure_time := some now
    state := if cb.failure_threshold ≤ cb.failure_count + 1 then .OPEN else cb.state }

/-- Outcome of one `call`: `rejected` — the breaker raised without invoking
the wrapped operation; `ok a` — the operation ran and returned `a`;
`err` — the operation ran and raised (the exception is re-raised). -/
inductive CallResult (A : Type) where
  | rejected
  | ok (a : A)
  | err
deriving Repr, DecidableEq

/-- `call` (lines 960-975).  The wrapped operation is modelled by its
outcome `op : Option A` (`some a` = returns `a`, `none` = raises). -/
def CircuitBreaker.call (cb : CircuitBreaker) (now : Nat) (op : Option A) :
    CallResult A × CircuitBreaker :=
  match cb.gate now with
  | none => (.rejected, cb)
  | some cb1 =>
      match op with
      | some a => (.ok a, cb1.on_success)
      | none => (.err, cb1.on_failure now)

/-- A sequence of calls whose wrapped operation always raises, at the given
times. -/
def runFailures (cb : CircuitBreaker) (times : List Nat) : CircuitBreaker :=
  times.foldl (fun c t => (c.call t (none : Option Unit)).2) cb

/-! ### Aircraft registry cache (lines 844-946) -/

/-- The three enrichment fields returned by `get_aircraft_info`. -/
structure AircraftInfo where
  registration : Option String
  type_code : Option String
  long_type_name : Option String
deriving Repr, DecidableEq

def emptyInfo : AircraftInfo := ⟨none, none, none⟩

structure AircraftRegistryCache where
  aircraft_data : List (String × AircraftInfo)
  last_update_time : Nat
  csv_circuit_breaker : CircuitBreaker
deriving Repr, DecidableEq

/-- `AircraftRegistryCache.__init__` (lines 847-853). -/
def AircraftRegistryCache.mkInit : AircraftRegistryCache :=
  { aircraft_data := []
    last_update_time := 0
    csv_circuit_breaker := CircuitBreaker.init 3 300 }

/-- Python `str.strip()` whitespace (the ASCII subset; the feed data is
ASCII). -/
def pyIsSpace (ch : Char) : Bool :=
  ch = ' ' || ch = '\t' || ch = '\n' || ch = '\r' || ch = '\x0b' || ch = '\x0c'

/-- Python `str.strip()`: drop leading and trailing whitespace. -/
def pyStrip (s : String) : String :=
  ⟨((s.data.dropWhile pyIsSpace).reverse.dropWhile pyIsSpace).reverse⟩

/-- Python `str.upper()` (ASCII). -/
def pyUpper (s : String) : String :=
  ⟨s.data.map Char.toUpper⟩

/-- `row[i].strip() if len(row) > i and row[i].strip() else None`. -/
def optField (s : String) : Option String :=
  if pyStrip s = "" then none else some (pyStrip s)

def isHexDigitUpper (ch : Char) : Bool :=
  ch ∈ "0123456789ABCDEF".toList

/-- `len(hex_code) == 6 and all(c in "0123456789ABCDEF" for c in hex_code)`. -/
def validHex6 (s : String) : Bool :=
  s.length = 6 && s.toList.all isHexDigitUpper

/-- One row of the semicolon-delimited registry file (lines 873-890):
rows with fewer than 5 fields, an empty first field, or a first field that
is not 6 uppercase-normalized hex characters are skipped. -/
def parseRow (row : List String) : Option (String × AircraftInfo) :=
  if 5 ≤ row.length ∧ pyStrip (row.headD "") ≠ "" then
    let hex := pyUpper (pyStrip (row.headD ""))
    if validHex6 hex then
      some (hex,
        { registration := optField (row.getD 1 "")
          type_code := optField (row.getD 2 "")
          long_type_name := optField (row.getD 4 "") })
    else none
  else none

/-- Dict insertion with string keys: overwrite in place, else append. -/
def dictInsert (l : List (String × AircraftInfo)) (p : String × AircraftInfo) :
    List (String × AircraftInfo) :=
  match l with
  | [] => [p]
  | q :: rest => if q.1 = p.1 then p :: rest else q :: dictInsert rest p

/-- `csv.reader(csv_content.split(chr(10)), delimiter=chr(59))` feeding the
row loop of `_load_aircraft_csv`. -/
def parseCSV (content : String) : List (String × AircraftInfo) :=
  (content.splitOn "\n").foldl
    (fun acc line =>
      match parseRow (line.splitOn ";") with
      | some p => dictInsert acc p
      | none => acc)
    []

/-- `_load_aircraft_csv` (lines 855-897).  `fetch : Option String` is the
outcome of the HTTP GET (`some body` = 2xx response text, `none` = raises);
the body is passed through the circuit breaker and then `strip`-ped.  Any
exception — a breaker-open rejection or a fetch failure — is caught and an
empty dict is returned; an empty response body also yields an empty dict. -/
def load_aircraft_csv (cb : CircuitBreaker) (now : Nat) (fetch : Option String) :
    List (String × AircraftInfo) × CircuitBreaker :=
  match cb.call now (fetch.map pyStrip) with
  | (.rejected, cb1) => ([], cb1)
  | (.err, cb1) => ([], cb1)
  | (.ok content, cb1) =>
      if content = "" then ([], cb1) else (parseCSV content, cb1)

/-- `self.aircraft_data.get(hex_upper, {})` followed by the three
`.get(field)` reads that build the returned copy. -/
def lookupInfo (l : List (String × AircraftInfo)) (k : String) : AircraftInfo :=
  match l.find? (fun p => p.1 = k) with
  | some p => p.2
  | none => emptyInfo

/-- The refresh block of `get_aircraft_info` (lines 907-926): when the cache
is stale (`now - last_update_time > AIRCRAFT_CSV_TTL_SECONDS`) or empty, a
refresh is attempted (the `_loading` reentrancy flag is always false in the
single-threaded cycle): a nonempty fetched dataset replaces `aircraft_data`
wholesale; an empty one (any failure) leaves the old data in place. -/
def refreshRegistry (rc : AircraftRegistryCache) (now : Nat)
    (fetch : Option String) : AircraftRegistryCache :=
  if rc.last_update_time + AIRCRAFT_CSV_TTL_SECONDS < now ∨ rc.aircraft_data = [] then
    if (load_aircraft_csv rc.csv_circuit_breaker now fetch).1 ≠ [] then
      { aircraft_data := (load_aircraft_csv rc.csv_circuit_breaker now fetch).1
        last_update_time := now
        csv_circuit_breaker := (load_aircraft_csv rc.csv_circuit_breaker now fetch).2 }
    else
      { rc with csv_circuit_breaker := (load_aircraft_csv rc.csv_circuit_breaker now fetch).2 }
  else rc

/-- `get_aircraft_info` (lines 899-937).  An empty hex short-circuits to an
all-`None` record; otherwise refresh if due, then look up the uppercased
hex in the current data and return a copy of its fields. -/
def get_aircraft_info (rc : AircraftRegistryCache) (hex_code : String)
    (now : Nat) (fetch : Option String) :
    AircraftInfo × AircraftRegistryCache :=
  if hex_code = "" then (emptyInfo, rc)
  else
    (lookupInfo (refreshRegistry rc now fetch).aircraft_data (pyUpper hex_code),
     refreshRegistry rc now fetch)

/-! ### Reconciliation pipeline (`ADSBLogger.run`, lines 1304-1459)

The registry lookup performed inside the per-aircraft loop is abstracted as
a pure function `registry : String → AircraftInfo` for the duration of one
cycle; its internal refresh behaviour is modelled separately by
`get_aircraft_info` above.  The upload to the database is abstracted by its
boolean outcome.  The telemetry attributes of an observation (position,
altitude, ...) are carried through the merge untouched by the source, so the
model keeps only the fields the merge writes. -/

/-- The fields of a cached aircraft record that the merge step writes
(lines 1339-1362); everything else is copied verbatim from the feed. -/
structure Aircraft where
  hex : String
  registration : Option String
  type_code : Option String
  long_type_name : Option String
  first_seen : Nat
  is_new_sighting : Bool
deriving Repr, DecidableEq

/-- One entry of the fetched `aircraft.json` array: `hex = none` models a
JSON object without a `hex` key (`'hex' in ac` is false), `some ""` a
present-but-empty one. -/
structure RawAircraft where
  hex : Option String
deriving Repr, DecidableEq

/-- `{ac['hex'] for ac in all_aircraft if 'hex' in ac}` (line 1329),
as a list used only through membership. -/
def currentHexes (observed : List RawAircraft) : List String :=
  observed.filterMap (fun ac => ac.hex)

/-- `if ac.get(field) and len(ac[field]) > n: ac[field] = ac[field][:n]`
(lines 1344-1349). -/
def truncOpt (n : Nat) (s : Option String) : Option String :=
  match s with
  | some str => if n < str.length then some (str.take n) else some str
  | none => none

/-- Mutable pipeline state carried across cycles (`ADSBLogger.__init__`,
lines 1060-1065). -/
structure LoggerState where
  local_aircraft_cache : TTLCache Aircraft
  previously_seen_hexes : List String
  last_summary_upload_time : Nat
  first_scan_complete : Bool
deriving Repr, DecidableEq

/-- The record the merge loop builds for hex `h` (lines 1339-1362): the
enrichment fields truncated to the database column limits, `first_seen`
carried over from the cache when `h` is still cached (else stamped `now`),
and `is_new_sighting` from membership in the previous cycle's observed
set. -/
def mergedRecord (cache : TTLCache Aircraft) (prevSeen : List String)
    (registry : String → AircraftInfo) (now : Nat) (h : String) : Aircraft :=
  { hex := h
    registration := truncOpt 15 (registry h).registration
    type_code := truncOpt 10 (registry h).type_code
    long_type_name := truncOpt 100 (registry h).long_type_name
    first_seen := match (cache.get h now).1 with
      | some cached => cached.first_seen
      | none => now
    is_new_sighting := !(prevSeen.contains h) }

/-- The body of the per-aircraft loop (lines 1334-1365): skip a missing or
empty hex; otherwise look up the cached record (a side-effecting `get`),
build the merged record, and `put` it back into the cache. -/
def processOne (cache : TTLCache Aircraft) (prevSeen : List String)
    (registry : String → AircraftInfo) (now : Nat) (ac : RawAircraft) :
    TTLCache Aircraft :=
  match ac.hex with
  | none => cache
  | some h =>
      if h = "" then cache
      else ((cache.get h now).2).putT h (mergedRecord cache prevSeen registry now h) now

/-- The whole `for ac in all_aircraft` loop (lines 1332-1367). -/
def mergeStep (cache : TTLCache Aircraft) (prevSeen : List String)
    (registry : String → AircraftInfo) (now : Nat)
    (observed : List RawAircraft) : TTLCache Aircraft :=
  observed.foldl (fun c ac => processOne c prevSeen registry now ac) cache

/-- `should_upload` (lines 1391-1393):
interval elapsed since the last successful upload, or cache at/over the
configured capacity, or initial baseline upload still pending with a
nonempty cache. -/
def shouldUpload (last_upload : Nat) (first_scan_complete : Bool)
    (cache_size now : Nat) : Bool :=
  (last_upload + SUMMARY_UPLOAD_INTERVAL ≤ now) ||
  (MAX_CACHE_SIZE ≤ cache_size) ||
  (!first_scan_complete && 0 < cache_size)

/-- The post-commit flag reset (lines 1421-1423): iterate over a fresh
`items()` snapshot and re-`put` every record with `is_new_sighting = False`. -/
def clearNewSightingFlags (c : TTLCache Aircraft) (now : Nat) : TTLCache Aircraft :=
  let snap := c.items now
  snap.1.foldl
    (fun acc kv => acc.putT kv.1 { kv.2 with is_new_sighting := false } now)
    snap.2

/-- Cache state after the merge loop. -/
def cacheAfterMerge (st : LoggerState) (now : Nat) (observed : List RawAircraft)
    (registry : String → AircraftInfo) : TTLCache Aircraft :=
  mergeStep st.local_aircraft_cache st.previously_seen_hexes registry now observed

/-- Cache state after `cleanup_expired()` and `len()` (lines 1372-1373),
which both purge. -/
def cacheAfterSize (st : LoggerState) (now : Nat) (observed : List RawAircraft)
    (registry : String → AircraftInfo) : TTLCache Aircraft :=
  ((((cacheAfterMerge st now observed registry).cleanup_expired now).2).size now).2

/-- `cache_size` as read at line 1373 (size after purge). -/
def cycleCacheSize (st : LoggerState) (now : Nat) (observed : List RawAircraft)
    (registry : String → AircraftInfo) : Nat :=
  ((((cacheAfterMerge st now observed registry).cleanup_expired now).2).size now).1

/-- `should_upload and cache_size > 0` (line 1395): whether the commit step
runs this cycle. -/
def uploadAttempted (st : LoggerState) (now : Nat) (observed : List RawAircraft)
    (registry : String → AircraftInfo) : Bool :=
  shouldUpload st.last_summary_upload_time st.first_scan_complete
      (cycleCacheSize st now observed registry) now
    && decide (0 < cycleCacheSize st now observed registry)

/-- Cache state after `upload_data = dict(self.local_aircraft_cache.items())`
(line 1406), whose `items()` purges once more. -/
def cacheAfterItems (st : LoggerState) (now : Nat) (observed : List RawAircraft)
    (registry : String → AircraftInfo) : TTLCache Aircraft :=
  (((cacheAfterSize st now observed registry).items now)).2

/-- One full cycle of `run` (lines 1315-1451), returning the next state and
whether a commit was attempted.  `now` is the cycle's `current_time`;
`observed` the validated feed snapshot (fetch failure = empty list);
`uploadSucceeds` the outcome of `upload_summary_to_database`. -/
def runCycle (st : LoggerState) (now : Nat) (observed : List RawAircraft)
    (registry : String → AircraftInfo) (uploadSucceeds : Bool) :
    LoggerState × Bool :=
  if uploadAttempted st now observed registry then
    if uploadSucceeds then
      ({ local_aircraft_cache :=
            clearNewSightingFlags (cacheAfterItems st now observed registry) now
         previously_seen_hexes := currentHexes observed
         last_summary_upload_time := now
         first_scan_complete := true }, true)
    else
      ({ st with local_aircraft_cache := cacheAfterItems st now observed registry
                 previously_seen_hexes := currentHexes observed }, true)
  else
    ({ st with local_aircraft_cache := cacheAfterSize st now observed registry
               previously_seen_hexes := currentHexes observed }, false)

/-! ### List-level helper lemmas -/

variable {V : Type}

lemma evictLoop_zero (l : List (Entry V)) : evictLoop 0 l = none := by
  induction l with
  | nil => simp [evictLoop]
  | cons e rest ih => simp [evictLoop, ih]

lemma evictLoop_eq_drop {m : Nat} (hm : 1 ≤ m) (l : List (Entry V)) :
    evictLoop m l = some (l.drop (l.length + 1 - m)) := by
  induction l with
  | nil =>
      have : m ≠ 0 := by omega
      simp [evictLoop, this]
  | cons e rest ih =>
      by_cases h : m ≤ (e :: rest).length
      · have hlen : (e :: rest).length + 1 - m = (rest.length + 1 - m) + 1 := by
          simp only [List.length_cons] at h ⊢; omega
        rw [evictLoop, if_pos h, ih, hlen, List.drop_succ_cons]
      · have hlen : (e :: rest).length + 1 - m = 0 := by
          simp only [List.length_cons] at h ⊢; omega
        rw [evictLoop, if_neg h, hlen, List.drop_zero]

lemma evictLoop_of_lt {m : Nat} {l : List (Entry V)} (h : l.length < m) :
    evictLoop m l = some l := by
  have hm : 1 ≤ m := by omega
  have hz : l.length + 1 - m = 0 := by omega
  rw [evictLoop_eq_drop hm, hz, List.drop_zero]

lemma updateEntry_length_le (k : String) (v : V) (now : Nat) (l : List (Entry V)) :
    (updateEntry k v now l).length ≤ l.length + 1 := by
  induction l with
  | nil => simp [updateEntry]
  | cons e rest ih =>
      by_cases h : e.key = k
      · simp [updateEntry, h]
      · simp only [updateEntry, if_neg h, List.length_cons]
        omega

lemma findKey_updateEntry_self (k : String) (v : V) (now : Nat) (l : List (Entry V)) :
    findKey (updateEntry k v now l) k = some ⟨k, v, now⟩ := by
  induction l with
  | nil =>
      rw [updateEntry, findKey, List.find?_cons_of_pos _ (by simp)]
  | cons e rest ih =>
      by_cases h : e.key = k
      · rw [updateEntry, if_pos h, findKey, List.find?_cons_of_pos _ (by simp)]
      · rw [updateEntry, if_neg h, findKey, List.find?_cons_of_neg _ (by simp [h])]
        exact ih

lemma mem_keysOf {l : List (Entry V)} {k : String} :
    k ∈ keysOf l ↔ ∃ e ∈ l, e.key = k := by
  constructor
  · intro h
    rcases List.mem_map.mp h with ⟨e, he, hk⟩
    exact ⟨e, he, hk⟩
  · rintro ⟨e, he, hk⟩
    exact hk ▸ List.mem_map_of_mem Entry.key he

lemma findKey_eq_none {l : List (Entry V)} {k : String} (h : k ∉ keysOf l) :
    findKey l k = none := by
  rw [findKey, List.find?_eq_none]
  intro e he
  simp only [decide_eq_true_eq]
  intro hk
  exact h (mem_keysOf.mpr ⟨e, he, hk⟩)

lemma updateEntry_absent {l : List (Entry V)} {k : String} (v : V) (now : Nat)
    (h : k ∉ keysOf l) : updateEntry k v now l = l ++ [⟨k, v, now⟩] := by
  induction l with
  | nil => simp [updateEntry]
  | cons e rest ih =>
      have hk : e.key ≠ k := by
        intro hek
        exact h (mem_keysOf.mpr ⟨e, by simp, hek⟩)
      have hrest : k ∉ keysOf rest := by
        intro hm
        rcases mem_keysOf.mp hm with ⟨e1, he1, hk1⟩
        exact h (mem_keysOf.mpr ⟨e1, by simp [he1], hk1⟩)
      simp [updateEntry, hk, ih hrest]

lemma updateEntry_append_cons {l1 l2 : List (Entry V)} {k : String}
    (v : V) (now : Nat) (e : Entry V)
    (h1 : k ∉ keysOf l1) (he : e.key = k) :
    updateEntry k v now (l1 ++ e :: l2) = l1 ++ ⟨k, v, now⟩ :: l2 := by
  induction l1 with
  | nil => simp [updateEntry, he]
  | cons e1 rest ih =>
      have hk : e1.key ≠ k := by
        intro hek
        exact h1 (mem_keysOf.mpr ⟨e1, by simp, hek⟩)
      have hrest : k ∉ keysOf rest := by
        intro hm
        rcases mem_keysOf.mp hm with ⟨e2, he2, hk2⟩
        exact h1 (mem_keysOf.mpr ⟨e2, by simp [he2], hk2⟩)
      simp [updateEntry, hk, ih hrest]

lemma mem_updateEntry {l : List (Entry V)} {k : String} {v : V} {now : Nat}
    {x : Entry V} (hx : x ∈ updateEntry k v now l) :
    x = ⟨k, v, now⟩ ∨ x ∈ l := by
  induction l with
  | nil => simp [updateEntry] at hx; exact Or.inl hx
  | cons e rest ih =>
      by_cases h : e.key = k
      · simp only [updateEntry, if_pos h, List.mem_cons] at hx
        rcases hx with hx | hx
        · exact Or.inl hx
        · exact Or.inr (by simp [hx])
      · simp only [updateEntry, if_neg h, List.mem_cons] at hx
        rcases hx with hx | hx
        · exact Or.inr (by simp [hx])
        · rcases ih hx with hx1 | hx1
          · exact Or.inl hx1
          · exact Or.inr (by simp [hx1])

lemma mem_updateEntry_nodup {l : List (Entry V)} {k : String} {v : V} {now : Nat}
    {x : Entry V} (hnd : (keysOf l).Nodup) (hx : x ∈ updateEntry k v now l) :
    x = ⟨k, v, now⟩ ∨ (x ∈ l ∧ x.key ≠ k) := by
  induction l with
  | nil => simp [updateEntry] at hx; exact Or.inl hx
  | cons e rest ih =>
      simp only [keysOf, List.map_cons, List.nodup_cons] at hnd
      by_cases h : e.key = k
      · simp only [updateEntry, if_pos h, List.mem_cons] at hx
        rcases hx with hx | hx
        · exact Or.inl hx
        · refine Or.inr ⟨by simp [hx], ?_⟩
          intro hxk
          apply hnd.1
          rw [h]
          rw [← hxk]
          exact List.mem_map_of_mem Entry.key hx
      · simp only [updateEntry, if_neg h, List.mem_cons] at hx
        rcases hx with hx | hx
        · refine Or.inr ⟨by simp [hx], ?_⟩
          rw [hx]
          exact h
        · rcases ih hnd.2 hx with hx1 | ⟨hx1, hx2⟩
          · exact Or.inl hx1
          · exact Or.inr ⟨by simp [hx1], hx2⟩

lemma keysOf_sublist {l1 l2 : List (Entry V)} (h : l1.Sublist l2) :
    (keysOf l1).Sublist (keysOf l2) :=
  h.map Entry.key

lemma purge_sublist (ttl now : Nat) (l : List (Entry V)) :
    (purge ttl now l).Sublist l :=
  List.filter_sublist l

lemma eraseKey_sublist (k : String) (l : List (Entry V)) :
    (eraseKey k l).Sublist l := by
  induction l with
  | nil => simp [eraseKey]
  | cons e rest ih =>
      by_cases h : e.key = k
      · simp only [eraseKey, if_pos h]
        exact (List.sublist_cons_self e rest)
      · simp only [eraseKey, if_neg h]
        exact ih.cons₂ e

lemma mem_purge {ttl now : Nat} {l : List (Entry V)} {e : Entry V}
    (h : e ∈ purge ttl now l) : e ∈ l ∧ ¬(e.stamp + ttl < now) := by
  have := List.of_mem_filter h
  refine ⟨List.mem_of_mem_filter h, ?_⟩
  simpa [expiredAt] using this

lemma purge_eq_self {ttl now : Nat} {l : List (Entry V)}
    (h : ∀ e ∈ l, ¬(e.stamp + ttl < now)) : purge ttl now l = l := by
  rw [purge, List.filter_eq_self]
  intro e he
  simpa [expiredAt] using h e he

lemma keysOf_updateEntry (k : String) (v : V) (now : Nat) (l : List (Entry V)) :
    keysOf (updateEntry k v now l) =
      if k ∈ keysOf l then keysOf l else keysOf l ++ [k] := by
  induction l with
  | nil => simp [updateEntry, keysOf]
  | cons e rest ih =>
      by_cases he : e.key = k
      · rw [updateEntry, if_pos he]
        have hmem : k ∈ keysOf (e :: rest) :=
          mem_keysOf.mpr ⟨e, by simp, he⟩
        rw [if_pos hmem]
        simp [keysOf, he]
      · rw [updateEntry, if_neg he]
        have hiff : k ∈ keysOf (e :: rest) ↔ k ∈ keysOf rest := by
          constructor
          · intro hm
            rcases mem_keysOf.mp hm with ⟨e1, he1, hk1⟩
            rcases List.mem_cons.mp he1 with rfl | hmem
            · exact absurd hk1 he
            · exact mem_keysOf.mpr ⟨e1, hmem, hk1⟩
          · intro hm
            rcases mem_keysOf.mp hm with ⟨e1, he1, hk1⟩
            exact mem_keysOf.mpr ⟨e1, by simp [he1], hk1⟩
        by_cases hk : k ∈ keysOf rest
        · rw [if_pos (hiff.mpr hk)]
          simp only [keysOf, List.map_cons] at ih ⊢
          rw [ih]
          simp [show k ∈ List.map Entry.key rest from hk]
        · rw [if_neg (fun hm => hk (hiff.mp hm))]
          simp only [keysOf, List.map_cons] at ih ⊢
          rw [ih]
          simp [show k ∉ List.map Entry.key rest from hk]

lemma nodup_updateEntry {l : List (Entry V)} {k : String} (v : V) (now : Nat)
    (h : (keysOf l).Nodup) : (keysOf (updateEntry k v now l)).Nodup := by
  rw [keysOf_updateEntry]
  by_cases hk : k ∈ keysOf l
  · simpa [hk] using h
  · rw [if_neg hk]
    exact List.Nodup.append h (List.nodup_singleton k) ((List.disjoint_singleton).2 hk)

lemma nodup_keys_sublist {l1 l2 : List (Entry V)} (h : l1.Sublist l2)
    (h2 : (keysOf l2).Nodup) : (keysOf l1).Nodup :=
  (keysOf_sublist h).nodup h2

lemma findKey_eraseKey_self {l : List (Entry V)} {k : String}
    (h : (keysOf l).Nodup) : findKey (eraseKey k l) k = none := by
  induction l with
  | nil => simp [eraseKey, findKey, List.find?]
  | cons e rest ih =>
      simp only [keysOf, List.map_cons, List.nodup_cons] at h
      by_cases hk : e.key = k
      · rw [eraseKey, if_pos hk]
        apply findKey_eq_none
        intro hmem
        apply h.1
        rw [hk]
        exact hmem
      · rw [eraseKey, if_neg hk, findKey, List.find?_cons_of_neg _ (by simp [hk])]
        exact ih h.2

/-! ### Characterization of `put` -/

/-- The survivors of the purge step, with the capacity-eviction victims
(a prefix: the oldest-inserted surviving entries) dropped from the front. -/
def afterEvict (c : TTLCache V) (now : Nat) : List (Entry V) :=
  (purge c.ttl now c.entries).drop ((purge c.ttl now c.entries).length + 1 - c.max_size)

/-- The entry list a successful `put` leaves behind. -/
def putEntries (c : TTLCache V) (k : String) (v : V) (now : Nat) : List (Entry V) :=
  updateEntry k v now (afterEvict c now)

lemma put_eq {c : TTLCache V} (hmax : 1 ≤ c.max_size) (k : String) (v : V) (now : Nat) :
    c.put k v now = some { c with entries := putEntries c k v now } := by
  rw [TTLCache.put, evictLoop_eq_drop hmax]
  rfl

lemma put_length_le {c : TTLCache V} (hmax : 1 ≤ c.max_size) (k : String) (v : V)
    (now : Nat) {c1 : TTLCache V} (h : c.put k v now = some c1) :
    c1.entries.length ≤ c.max_size := by
  rw [put_eq hmax] at h
  have h1 : c1.entries = putEntries c k v now := by cases h; rfl
  rw [h1, putEntries]
  have h2 := updateEntry_length_le k v now (afterEvict c now)
  have h3 : (afterEvict c now).length =
      (purge c.ttl now c.entries).length -
        ((purge c.ttl now c.entries).length + 1 - c.max_size) := by
    rw [afterEvict, List.length_drop]
  omega

lemma evictLoop_sublist {m : Nat} {l l2 : List (Entry V)}
    (h : evictLoop m l = some l2) : l2.Sublist l := by
  induction l generalizing l2 with
  | nil =>
      rw [evictLoop] at h
      by_cases hm : m = 0
      · rw [if_pos hm] at h; cases h
      · rw [if_neg hm] at h
        cases h
        exact List.Sublist.refl []
  | cons e rest ih =>
      rw [evictLoop] at h
      by_cases hm : m ≤ (e :: rest).length
      · rw [if_pos hm] at h
        exact (ih h).trans (List.sublist_cons_self e rest)
      · rw [if_neg hm] at h
        cases h
        exact List.Sublist.refl _

lemma put_some_shape {c : TTLCache V} {k : String} {v : V} {now : Nat}
    {c1 : TTLCache V} (h : c.put k v now = some c1) :
    ∃ l2, evictLoop c.max_size (purge c.ttl now c.entries) = some l2 ∧
      c1 = { c with entries := updateEntry k v now l2 } := by
  rw [TTLCache.put] at h
  cases hE : evictLoop c.max_size (purge c.ttl now c.entries) with
  | none => rw [hE] at h; cases h
  | some l2 =>
      rw [hE] at h
      cases h
      exact ⟨l2, rfl, rfl⟩

lemma put_nodup {c : TTLCache V} {k : String} {v : V} {now : Nat}
    {c1 : TTLCache V} (hnd : (keysOf c.entries).Nodup)
    (h : c.put k v now = some c1) : (keysOf c1.entries).Nodup := by
  rcases put_some_shape h with ⟨l2, hE, rfl⟩
  have hsub : l2.Sublist c.entries :=
    (evictLoop_sublist hE).trans (purge_sublist c.ttl now c.entries)
  exact nodup_updateEntry v now (nodup_keys_sublist hsub hnd)

lemma get_snd_max (c : TTLCache V) (k : String) (now : Nat) :
    ((c.get k now).2.max_size = c.max_size ∧ (c.get k now).2.ttl = c.ttl) := by
  cases hE : findKey c.entries k with
  | none => simp [TTLCache.get, hE]
  | some e =>
      by_cases h : e.stamp + c.ttl < now
      · simp [TTLCache.get, hE, h]
      · simp [TTLCache.get, hE, h]

lemma putT_eq {c : TTLCache V} (hmax : 1 ≤ c.max_size) (k : String) (v : V) (now : Nat) :
    c.putT k v now = { c with entries := putEntries c k v now } := by
  rw [TTLCache.putT, put_eq hmax]
  rfl

lemma map_ite_id_of_not_mem {l : List (Entry V)} {k : String} (y : Entry V)
    (h : k ∉ keysOf l) :
    l.map (fun e => if e.key = k then y else e) = l := by
  induction l with
  | nil => simp
  | cons e rest ih =>
      have hk : e.key ≠ k := fun hek => h (mem_keysOf.mpr ⟨e, by simp, hek⟩)
      have hrest : k ∉ keysOf rest := by
        intro hm
        rcases mem_keysOf.mp hm with ⟨e1, he1, hk1⟩
        exact h (mem_keysOf.mpr ⟨e1, by simp [he1], hk1⟩)
      simp [hk, ih hrest]

lemma updateEntry_map_of_nodup {l : List (Entry V)} {k : String} (v : V) (now : Nat)
    (hnd : (keysOf l).Nodup) (hk : k ∈ keysOf l) :
    updateEntry k v now l = l.map (fun e => if e.key = k then ⟨k, v, now⟩ else e) := by
  induction l with
  | nil => simp [keysOf] at hk
  | cons e rest ih =>
      simp only [keysOf, List.map_cons, List.nodup_cons] at hnd
      by_cases he : e.key = k
      · rw [updateEntry, if_pos he]
        have hrest : k ∉ keysOf rest := by
          intro hm
          apply hnd.1
          rw [he]
          exact hm
        simp [he, map_ite_id_of_not_mem _ hrest]
      · have hkrest : k ∈ keysOf rest := by
          rcases mem_keysOf.mp hk with ⟨e1, he1, hk1⟩
          rcases List.mem_cons.mp he1 with rfl | hmem
          · exact absurd hk1 he
          · exact mem_keysOf.mpr ⟨e1, hmem, hk1⟩
        rw [updateEntry, if_neg he, ih hnd.2 hkrest]
        simp [he]

/-! ### Claim C1 -/

/-- C1: for every TTLCache with `max_size ≥ 1`, `put` always succeeds and
leaves at most `max_size` entries; the entries it leaves are exactly the
insertion of the new record into the purged list with the capacity-eviction
victims dropped from the FRONT — i.e. each capacity-driven eviction removes
the oldest-inserted surviving (non-expired) entry first (`putEntries`/
`afterEvict` drop a prefix of the purged, insertion-ordered list).  In
particular with capacity 3 and TTL 3600, putting distinct keys A, B, C, D
in sequence leaves exactly the keys B, C, D. -/
theorem c1_capacity_invariant :
    (∀ (V : Type) (c : TTLCache V) (k : String) (v : V) (now : Nat),
        1 ≤ c.max_size →
        ∃ c1, c.put k v now = some c1 ∧
          c1.entries.length ≤ c.max_size ∧
          c1.entries = putEntries c k v now) ∧
    keysOf (((((TTLCache.init Nat 3 3600).putT "A" 10 0).putT "B" 20 0).putT
        "C" 30 0).putT "D" 40 0).entries = ["B", "C", "D"] := by
  constructor
  · intro V c k v now hmax
    exact ⟨_, put_eq hmax k v now, put_length_le hmax k v now (put_eq hmax k v now), rfl⟩
  · decide

/-- Witness for C1: the universally quantified part applied to a concrete
cache of capacity 2 holding one entry. -/
theorem c1_capacity_invariant_witness :
    ∃ c1, (⟨[⟨"X", 5, 0⟩], 2, 100⟩ : TTLCache Nat).put "Y" 6 1 = some c1 ∧
      c1.entries.length ≤ (⟨[⟨"X", 5, 0⟩], 2, 100⟩ : TTLCache Nat).max_size ∧
      c1.entries = putEntries (⟨[⟨"X", 5, 0⟩], 2, 100⟩ : TTLCache Nat) "Y" 6 1 :=
  c1_capacity_invariant.1 Nat ⟨[⟨"X", 5, 0⟩], 2, 100⟩ "Y" 6 1 (by decide)

/-! ### Claim C2 -/

/-- C2: after `put k v` at time `t0`, a `get k` at time `now` returns absent
whenever the elapsed time exceeds the TTL (`t0 + ttl < now`, i.e.
`now - t0 > ttl`) and that same `get` call physically removes the entry
(no binding for `k` remains); if the entry is unexpired, `get` returns the
stored value and leaves the cache unchanged. -/
theorem c2_ttl_invariant :
    ∀ (V : Type) (c : TTLCache V) (k : String) (v : V) (t0 now : Nat)
      (c1 : TTLCache V),
      (keysOf c.entries).Nodup →
      c.put k v t0 = some c1 →
      ((t0 + c.ttl < now →
          (c1.get k now).1 = none ∧
          findKey ((c1.get k now).2).entries k = none) ∧
       (¬ (t0 + c.ttl < now) → c1.get k now = (some v, c1))) := by
  intro V c k v t0 now c1 hnd hput
  rcases put_some_shape hput with ⟨l2, hE, rfl⟩
  have httl : ({ c with entries := updateEntry k v t0 l2 } : TTLCache V).ttl = c.ttl := rfl
  have hfind : findKey (updateEntry k v t0 l2) k = some ⟨k, v, t0⟩ :=
    findKey_updateEntry_self k v t0 l2
  have hnd1 : (keysOf (updateEntry k v t0 l2)).Nodup := by
    have hsub : l2.Sublist c.entries :=
      (evictLoop_sublist hE).trans (purge_sublist c.ttl t0 c.entries)
    exact nodup_updateEntry v t0 (nodup_keys_sublist hsub hnd)
  constructor
  · intro hexp
    have hget : ({ c with entries := updateEntry k v t0 l2 } : TTLCache V).get k now =
        (none, { c with entries := eraseKey k (updateEntry k v t0 l2) }) := by
      rw [TTLCache.get]
      rw [show findKey ({ c with entries := updateEntry k v t0 l2 } : TTLCache V).entries k
            = some ⟨k, v, t0⟩ from hfind]
      simp only [httl]
      rw [if_pos hexp]
    rw [hget]
    exact ⟨rfl, findKey_eraseKey_self hnd1⟩
  · intro hexp
    rw [TTLCache.get]
    rw [show findKey ({ c with entries := updateEntry k v t0 l2 } : TTLCache V).entries k
          = some ⟨k, v, t0⟩ from hfind]
    simp only [httl]
    rw [if_neg hexp]

/-- Witness for C2: a concrete single-entry cache whose entry, put at time 0
with TTL 10, is expired at time 11 and removed by the `get`. -/
theorem c2_ttl_invariant_witness :
    (((⟨[⟨"A", 7, 0⟩], 3, 10⟩ : TTLCache Nat).get "A" 11).1 = none ∧
      findKey ((((⟨[⟨"A", 7, 0⟩], 3, 10⟩ : TTLCache Nat).get "A" 11).2).entries) "A" = none) :=
  (c2_ttl_invariant Nat ⟨[], 3, 10⟩ "A" 7 0 11 ⟨[⟨"A", 7, 0⟩], 3, 10⟩
    (by decide) (by decide)).1 (by decide)

/-! ### Claim C7 -/

/-- C7 counterexample: a TTLCache constructed with capacity 0 does NOT
degenerate to "always evict before insert".  The constructor's
`max_size or config.MAX_CACHE_SIZE` coalesces the falsy 0 to the configured
default 200, so after two puts the cache holds 2 entries, whereas
always-evict-before-insert would leave at most the single newly inserted
entry. -/
theorem c7_counterexample :
    (TTLCache.init Nat 0 100).max_size = 200 ∧
    ¬ ((((TTLCache.init Nat 0 100).putT "A" 1 0).putT "B" 2 0).entries.length ≤ 1) := by
  constructor
  · rfl
  · decide

/-- C7 amended: constructing a TTLCache with capacity 0 falls back to the
configured default capacity (`MAX_CACHE_SIZE` = 200), so every `put` on such
a cache completes without error — but it behaves as a default-capacity
cache, not as "always evict before insert".  Had the `max_size` field
actually been 0, the eviction loop would raise (`evictLoop 0 _ = none`,
the `StopIteration` of `next(iter({}))`). -/
theorem c7_capacity_zero_amended :
    (∀ (V : Type) (ttlSeconds : Nat),
        (TTLCache.init V 0 ttlSeconds).max_size = MAX_CACHE_SIZE) ∧
    (∀ (V : Type) (c : TTLCache V) (k : String) (v : V) (now : Nat),
        1 ≤ c.max_size → (c.put k v now).isSome) ∧
    (∀ (V : Type) (l : List (Entry V)), evictLoop 0 l = none) := by
  refine ⟨fun V ttlSeconds => rfl, ?_, fun V l => evictLoop_zero l⟩
  intro V c k v now hmax
  rw [put_eq hmax]
  rfl

/-- Witness for C7's amended theorem: a put on a cache constructed with
capacity 0 succeeds. -/
theorem c7_capacity_zero_amended_witness :
    ((TTLCache.init Nat 0 100).put "A" 1 0).isSome :=
  c7_capacity_zero_amended.2.1 Nat (TTLCache.init Nat 0 100) "A" 1 0 (by decide)

/-! ### Claim C10 -/

/-- C10: on a cache strictly below capacity (with distinct, unexpired
entries), a `put` of an already-present key overwrites the value and
refreshes the timestamp IN PLACE: the entry list is mapped pointwise, so the
key keeps its original position in the insertion order used for capacity
eviction — eviction order is set by first insertion, not by the latest
`put`. -/
theorem c10_reput_keeps_eviction_position :
    ∀ (V : Type) (c : TTLCache V) (k : String) (v : V) (now : Nat),
      (keysOf c.entries).Nodup →
      (∀ e ∈ c.entries, ¬ (e.stamp + c.ttl < now)) →
      c.entries.length < c.max_size →
      k ∈ keysOf c.entries →
      c.put k v now = some { c with entries := c.entries.map (fun e => if e.key = k then ⟨k, v, now⟩ else e) } := by
  intro V c k v now hnd hunexp hlt hk
  rw [TTLCache.put, purge_eq_self hunexp, evictLoop_of_lt hlt]
  show some ({ c with entries := updateEntry k v now c.entries } : TTLCache V) = _
  rw [updateEntry_map_of_nodup v now hnd hk]

/-- Witness for C10: re-putting "A" into a two-entry, capacity-3 cache
updates it in place, ahead of "B" in eviction order. -/
theorem c10_reput_keeps_eviction_position_witness :
    (⟨[⟨"A", 1, 0⟩, ⟨"B", 2, 0⟩], 3, 100⟩ : TTLCache Nat).put "A" 9 5 =
      some ⟨[⟨"A", 9, 5⟩, ⟨"B", 2, 0⟩], 3, 100⟩ := by
  rw [c10_reput_keeps_eviction_position Nat ⟨[⟨"A", 1, 0⟩, ⟨"B", 2, 0⟩], 3, 100⟩
    "A" 9 5 (by decide) (by decide) (by decide) (by decide)]
  decide

/-! ### Claim C3 -/

lemma gate_open_some {cb : CircuitBreaker} {t : Nat} (now : Nat)
    (hst : cb.state = .OPEN) (hlft : cb.last_failure_time = some t) :
    cb.gate now = if t ≠ 0 ∧ t + cb.timeout < now
      then some { cb with state := .HALF_OPEN } else none := by
  rw [CircuitBreaker.gate, if_pos (by rw [hst]), hlft]

lemma runFailures_reach_open :
    ∀ (ts : List Nat) (cb : CircuitBreaker), cb.state = .CLOSED →
      cb.failure_count + ts.length = cb.failure_threshold → 1 ≤ ts.length →
      (runFailures cb ts).state = .OPEN ∧
      (runFailures cb ts).failure_count = cb.failure_threshold := by
  intro ts
  induction ts with
  | nil => intro cb _ _ hlen; simp at hlen
  | cons t rest ih =>
      intro cb hst hcount _
      have hgate : cb.gate t = some cb := by
        rw [CircuitBreaker.gate, if_neg (by rw [hst]; exact fun h => nomatch h)]
      have hstep : runFailures cb (t :: rest) = runFailures (cb.on_failure t) rest := by
        rw [runFailures, List.foldl_cons, CircuitBreaker.call, hgate]
        rfl
      rw [hstep]
      by_cases hrest : rest = []
      · subst hrest
        have hc : cb.failure_count + 1 = cb.failure_threshold := by
          simpa using hcount
        have hopen : (cb.on_failure t).state = .OPEN := by
          rw [CircuitBreaker.on_failure]
          simp only [if_pos (by omega : cb.failure_threshold ≤ cb.failure_count + 1)]
        refine ⟨hopen, ?_⟩
        rw [runFailures, List.foldl_nil]
        show cb.failure_count + 1 = cb.failure_threshold
        omega
      · have hlenrest : 1 ≤ rest.length := by
          cases rest with
          | nil => exact absurd rfl hrest
          | cons a as => simp
        have hlt : cb.failure_count + 1 < cb.failure_threshold := by
          simp only [List.length_cons] at hcount
          omega
        have hcb1st : (cb.on_failure t).state = .CLOSED := by
          rw [CircuitBreaker.on_failure]
          simp only [if_neg (by omega : ¬ cb.failure_threshold ≤ cb.failure_count + 1)]
          exact hst
        have hccount : (cb.on_failure t).failure_count + rest.length =
            (cb.on_failure t).failure_threshold := by
          show cb.failure_count + 1 + rest.length = cb.failure_threshold
          simp only [List.length_cons] at hcount
          omega
        exact ih (cb.on_failure t) hcb1st hccount hlenrest

/-- C3: the breaker state machine.
(1) From a closed breaker with zero failures, exactly `failure_threshold`
consecutive failed calls (at arbitrary times) leave the state OPEN with
`failure_count = failure_threshold`.
(2) While OPEN with at most `timeout` seconds elapsed since the last
failure, any call is rejected without invoking the wrapped operation and
the breaker is unchanged.
(3) While OPEN with strictly more than `timeout` seconds elapsed since the
last (positive-time) failure, the locked section transitions to HALF_OPEN
and the operation is attempted (its outcome is propagated).
(4) Any call that is actually attempted and succeeds resets
`failure_count` to 0 and the state to CLOSED, from any prior state. -/
theorem c3_breaker_state_machine :
    (∀ (cb : CircuitBreaker) (ts : List Nat), cb.state = .CLOSED →
        cb.failure_count = 0 → ts.length = cb.failure_threshold →
        1 ≤ cb.failure_threshold →
        (runFailures cb ts).state = .OPEN ∧
        (runFailures cb ts).failure_count = cb.failure_threshold) ∧
    (∀ (A : Type) (cb : CircuitBreaker) (now t : Nat) (op : Option A),
        cb.state = .OPEN → cb.last_failure_time = some t →
        now ≤ t + cb.timeout →
        cb.call now op = (.rejected, cb)) ∧
    (∀ (A : Type) (cb : CircuitBreaker) (now t : Nat) (op : Option A),
        cb.state = .OPEN → cb.last_failure_time = some t → 1 ≤ t →
        t + cb.timeout < now →
        cb.gate now = some { cb with state := .HALF_OPEN } ∧
        (cb.call now op).1 = (match op with | some a => .ok a | none => .err)) ∧
    (∀ (A : Type) (cb : CircuitBreaker) (now : Nat) (a : A),
        (cb.call now (some a)).1 ≠ .rejected →
        (cb.call now (some a)).2.state = .CLOSED ∧
        (cb.call now (some a)).2.failure_count = 0) := by
  refine ⟨?_, ?_, ?_, ?_⟩
  · intro cb ts hst hc hlen hth
    exact runFailures_reach_open ts cb hst (by omega) (by omega)
  · intro A cb now t op hst hlft hle
    have hgate : cb.gate now = none := by
      rw [gate_open_some now hst hlft, if_neg]
      intro hcond
      omega
    rw [CircuitBreaker.call, hgate]
  · intro A cb now t op hst hlft ht helapsed
    have hgate : cb.gate now = some { cb with state := .HALF_OPEN } := by
      rw [gate_open_some now hst hlft, if_pos ⟨by omega, helapsed⟩]
    refine ⟨hgate, ?_⟩
    rw [CircuitBreaker.call, hgate]
    cases op with
    | none => rfl
    | some a => rfl
  · intro A cb now a hne
    rw [CircuitBreaker.call] at hne ⊢
    cases hgate : cb.gate now with
    | none => rw [hgate] at hne; exact absurd rfl hne
    | some cb1 => exact ⟨rfl, rfl⟩

/-- Witness for C3: threshold 2, timeout 5; two failures at times 1 and 2
open the breaker (part 1 of the theorem applied at concrete input). -/
theorem c3_breaker_state_machine_witness :
    (runFailures ⟨2, 5, 0, none, .CLOSED⟩ [1, 2]).state = .OPEN ∧
    (runFailures ⟨2, 5, 0, none, .CLOSED⟩ [1, 2]).failure_count = 2 :=
  c3_breaker_state_machine.1 ⟨2, 5, 0, none, .CLOSED⟩ [1, 2] rfl rfl rfl (by decide)

/-! ### Claim C8 -/

lemma load_fetch_none (cb : CircuitBreaker) (now : Nat) :
    (load_aircraft_csv cb now none).1 = [] := by
  rw [load_aircraft_csv, CircuitBreaker.call]
  cases hgate : cb.gate now with
  | none => rfl
  | some cb1 => rfl

lemma load_gate_none {cb : CircuitBreaker} {now : Nat} (fetch : Option String)
    (h : cb.gate now = none) : (load_aircraft_csv cb now fetch).1 = [] := by
  rw [load_aircraft_csv, CircuitBreaker.call, h]

lemma load_empty_body (cb : CircuitBreaker) (now : Nat) :
    (load_aircraft_csv cb now (some "")).1 = [] := by
  rw [load_aircraft_csv, CircuitBreaker.call]
  cases hgate : cb.gate now with
  | none => rfl
  | some cb1 =>
      rfl

lemma get_aircraft_info_snd {hex_code : String} (rc : AircraftRegistryCache)
    (now : Nat) (fetch : Option String) (h : hex_code ≠ "") :
    (get_aircraft_info rc hex_code now fetch).2 = refreshRegistry rc now fetch := by
  rw [get_aircraft_info, if_neg h]

/-- C8: the registry refresh is all-or-nothing.  For every lookup with a
nonempty hex code, the resulting in-memory registry map is either exactly
the old map or exactly the freshly loaded dataset (never a partial merge);
when no refresh is due the old map is kept, when a refresh is due and the
load yields a nonempty dataset the map is replaced wholesale, and when the
load yields an empty dataset (fetch raised, breaker open, or empty body —
the last three conjuncts) the old map is retained unchanged. -/
theorem c8_registry_refresh_atomic :
    (∀ (rc : AircraftRegistryCache) (hex_code : String) (now : Nat)
        (fetch : Option String), hex_code ≠ "" →
        ((get_aircraft_info rc hex_code now fetch).2.aircraft_data = rc.aircraft_data ∨
         (get_aircraft_info rc hex_code now fetch).2.aircraft_data =
           (load_aircraft_csv rc.csv_circuit_breaker now fetch).1) ∧
        (¬ (rc.last_update_time + AIRCRAFT_CSV_TTL_SECONDS < now ∨ rc.aircraft_data = []) →
          (get_aircraft_info rc hex_code now fetch).2.aircraft_data = rc.aircraft_data) ∧
        ((rc.last_update_time + AIRCRAFT_CSV_TTL_SECONDS < now ∨ rc.aircraft_data = []) →
          (load_aircraft_csv rc.csv_circuit_breaker now fetch).1 ≠ [] →
          (get_aircraft_info rc hex_code now fetch).2.aircraft_data =
            (load_aircraft_csv rc.csv_circuit_breaker now fetch).1) ∧
        ((rc.last_update_time + AIRCRAFT_CSV_TTL_SECONDS < now ∨ rc.aircraft_data = []) →
          (load_aircraft_csv rc.csv_circuit_breaker now fetch).1 = [] →
          (get_aircraft_info rc hex_code now fetch).2.aircraft_data = rc.aircraft_data)) ∧
    (∀ (cb : CircuitBreaker) (now : Nat), (load_aircraft_csv cb now none).1 = []) ∧
    (∀ (cb : CircuitBreaker) (now : Nat) (fetch : Option String),
        cb.gate now = none → (load_aircraft_csv cb now fetch).1 = []) ∧
    (∀ (cb : CircuitBreaker) (now : Nat), (load_aircraft_csv cb now (some "")).1 = []) := by
  refine ⟨?_, load_fetch_none, fun cb now fetch h => load_gate_none fetch h, load_empty_body⟩
  intro rc hex_code now fetch hhex
  rw [get_aircraft_info_snd rc now fetch hhex, refreshRegistry]
  by_cases hdue : rc.last_update_time + AIRCRAFT_CSV_TTL_SECONDS < now ∨ rc.aircraft_data = []
  · rw [if_pos hdue]
    by_cases hres : (load_aircraft_csv rc.csv_circuit_breaker now fetch).1 = []
    · rw [if_neg (by simpa using hres)]
      exact ⟨Or.inl rfl, fun _ => rfl, fun _ hne => absurd hres hne, fun _ _ => rfl⟩
    · rw [if_pos (by simpa using hres)]
      exact ⟨Or.inr rfl, fun hnd => absurd hdue hnd, fun _ _ => rfl,
        fun _ hempty => absurd hempty hres⟩
  · rw [if_neg hdue]
    exact ⟨Or.inl rfl, fun _ => rfl, fun hd => absurd hd hdue, fun hd _ => absurd hd hdue⟩

/-- Witness for C8: a stale registry holding one record keeps it unchanged
when the fetch raises (part applied at a concrete input). -/
theorem c8_registry_refresh_atomic_witness :
    (get_aircraft_info ⟨[("ABC123", emptyInfo)], 0, CircuitBreaker.init 3 300⟩
        "ABC123" 90000 none).2.aircraft_data = [("ABC123", emptyInfo)] :=
  ((c8_registry_refresh_atomic.1 ⟨[("ABC123", emptyInfo)], 0, CircuitBreaker.init 3 300⟩
      "ABC123" 90000 none (by decide)).2.2.2 (Or.inl (by decide)) (by decide))

/-! ### Invariant preservation through the pipeline -/

lemma putT_fields (c : TTLCache V) (k : String) (v : V) (now : Nat) :
    (c.putT k v now).max_size = c.max_size ∧ (c.putT k v now).ttl = c.ttl := by
  rw [TTLCache.putT]
  cases h : c.put k v now with
  | none => exact ⟨rfl, rfl⟩
  | some c1 =>
      rcases put_some_shape h with ⟨l2, _, rfl⟩
      exact ⟨rfl, rfl⟩

lemma putT_nodup {c : TTLCache V} {k : String} {v : V} {now : Nat}
    (hnd : (keysOf c.entries).Nodup) : (keysOf (c.putT k v now).entries).Nodup := by
  rw [TTLCache.putT]
  cases h : c.put k v now with
  | none => exact hnd
  | some c1 => exact put_nodup hnd h

lemma putT_length_le {c : TTLCache V} (hmax : 1 ≤ c.max_size) (k : String) (v : V)
    (now : Nat) : (c.putT k v now).entries.length ≤ c.max_size := by
  have := put_length_le hmax k v now (put_eq hmax k v now)
  rw [TTLCache.putT, put_eq hmax]
  exact this

lemma putT_entries {c : TTLCache V} (hmax : 1 ≤ c.max_size) (k : String) (v : V)
    (now : Nat) : (c.putT k v now).entries = putEntries c k v now := by
  rw [putT_eq hmax]

lemma get_snd_entries_cases (c : TTLCache V) (k : String) (now : Nat) :
    (c.get k now).2 = c ∨
    (c.get k now).2 = { c with entries := eraseKey k c.entries } := by
  cases hE : findKey c.entries k with
  | none => left; simp [TTLCache.get, hE]
  | some e =>
      by_cases h : e.stamp + c.ttl < now
      · right; simp [TTLCache.get, hE, h]
      · left; simp [TTLCache.get, hE, h]

lemma get_snd_nodup {c : TTLCache V} {k : String} {now : Nat}
    (hnd : (keysOf c.entries).Nodup) : (keysOf ((c.get k now).2).entries).Nodup := by
  rcases get_snd_entries_cases c k now with h | h
  · rw [h]; exact hnd
  · rw [h]; exact nodup_keys_sublist (eraseKey_sublist k c.entries) hnd

lemma get_snd_length_le {c : TTLCache V} {n : Nat} (k : String) (now : Nat)
    (hle : c.entries.length ≤ n) : ((c.get k now).2).entries.length ≤ n := by
  rcases get_snd_entries_cases c k now with h | h
  · rw [h]; exact hle
  · rw [h]
    exact le_trans ((eraseKey_sublist k c.entries).length_le) hle

lemma processOne_none (c : TTLCache Aircraft) (prev : List String)
    (reg : String → AircraftInfo) (now : Nat) :
    processOne c prev reg now ⟨none⟩ = c := rfl

lemma processOne_some {h : String} (hne : h ≠ "") (c : TTLCache Aircraft)
    (prev : List String) (reg : String → AircraftInfo) (now : Nat) :
    processOne c prev reg now ⟨some h⟩ =
      ((c.get h now).2).putT h (mergedRecord c prev reg now h) now := by
  show (if h = "" then c else ((c.get h now).2).putT h (mergedRecord c prev reg now h) now) = _
  rw [if_neg hne]

lemma processOne_fields (c : TTLCache Aircraft) (prev : List String)
    (reg : String → AircraftInfo) (now : Nat) (ac : RawAircraft) :
    (processOne c prev reg now ac).max_size = c.max_size ∧
    (processOne c prev reg now ac).ttl = c.ttl := by
  rcases ac with ⟨hx⟩
  cases hx with
  | none => exact ⟨rfl, rfl⟩
  | some h =>
      by_cases hne : h = ""
      · subst hne; exact ⟨rfl, rfl⟩
      · rw [processOne_some hne]
        have h1 := putT_fields ((c.get h now).2) h (mergedRecord c prev reg now h) now
        have h2 := get_snd_max c h now
        exact ⟨h1.1.trans h2.1, h1.2.trans h2.2⟩

lemma processOne_nodup {c : TTLCache Aircraft} {prev : List String}
    {reg : String → AircraftInfo} {now : Nat} {ac : RawAircraft}
    (hnd : (keysOf c.entries).Nodup) :
    (keysOf (processOne c prev reg now ac).entries).Nodup := by
  rcases ac with ⟨hx⟩
  cases hx with
  | none => exact hnd
  | some h =>
      by_cases hne : h = ""
      · subst hne; exact hnd
      · rw [processOne_some hne]
        exact putT_nodup (get_snd_nodup hnd)

lemma processOne_length_le {c : TTLCache Aircraft} {prev : List String}
    {reg : String → AircraftInfo} {now : Nat} {ac : RawAircraft}
    (hmax : 1 ≤ c.max_size) (hle : c.entries.length ≤ c.max_size) :
    (processOne c prev reg now ac).entries.length ≤ c.max_size := by
  rcases ac with ⟨hx⟩
  cases hx with
  | none => exact hle
  | some h =>
      by_cases hne : h = ""
      · subst hne; exact hle
      · rw [processOne_some hne]
        have hg : 1 ≤ ((c.get h now).2).max_size := by
          rw [(get_snd_max c h now).1]; exact hmax
        have := putT_length_le hg h (mergedRecord c prev reg now h) now
        rw [(get_snd_max c h now).1] at this
        exact this

lemma mergeStep_cons (c : TTLCache Aircraft) (prev : List String)
    (reg : String → AircraftInfo) (now : Nat) (ac : RawAircraft)
    (rest : List RawAircraft) :
    mergeStep c prev reg now (ac :: rest) =
      mergeStep (processOne c prev reg now ac) prev reg now rest := rfl

lemma mergeStep_fields (prev : List String) (reg : String → AircraftInfo)
    (now : Nat) :
    ∀ (obs : List RawAircraft) (c : TTLCache Aircraft),
      (mergeStep c prev reg now obs).max_size = c.max_size ∧
      (mergeStep c prev reg now obs).ttl = c.ttl := by
  intro obs
  induction obs with
  | nil => intro c; exact ⟨rfl, rfl⟩
  | cons ac rest ih =>
      intro c
      rw [mergeStep_cons]
      have h1 := ih (processOne c prev reg now ac)
      have h2 := processOne_fields c prev reg now ac
      exact ⟨h1.1.trans h2.1, h1.2.trans h2.2⟩

lemma mergeStep_nodup {prev : List String} {reg : String → AircraftInfo}
    {now : Nat} :
    ∀ (obs : List RawAircraft) (c : TTLCache Aircraft),
      (keysOf c.entries).Nodup →
      (keysOf (mergeStep c prev reg now obs).entries).Nodup := by
  intro obs
  induction obs with
  | nil => intro c hnd; exact hnd
  | cons ac rest ih =>
      intro c hnd
      rw [mergeStep_cons]
      exact ih _ (processOne_nodup hnd)

lemma mergeStep_length_le {prev : List String} {reg : String → AircraftInfo}
    {now : Nat} :
    ∀ (obs : List RawAircraft) (c : TTLCache Aircraft),
      1 ≤ c.max_size → c.entries.length ≤ c.max_size →
      (mergeStep c prev reg now obs).entries.length ≤ c.max_size := by
  intro obs
  induction obs with
  | nil => intro c _ hle; exact hle
  | cons ac rest ih =>
      intro c hmax hle
      rw [mergeStep_cons]
      have hf := processOne_fields c prev reg now ac
      have := ih (processOne c prev reg now ac) (by rw [hf.1]; exact hmax)
        (by rw [hf.1]; exact processOne_length_le hmax hle)
      rw [hf.1] at this
      exact this

/-! ### Claim C4 -/

/-- All entries keyed `h` carry the sighting flag `b`. -/
def FlagInv (h : String) (b : Bool) (l : List (Entry Aircraft)) : Prop :=
  ∀ e ∈ l, e.key = h → e.value.is_new_sighting = b

lemma flagInv_sublist {h : String} {b : Bool} {l1 l2 : List (Entry Aircraft)}
    (hs : l1.Sublist l2) (hI : FlagInv h b l2) : FlagInv h b l1 :=
  fun e he hk => hI e (hs.subset he) hk

lemma flagInv_updateEntry {h : String} {b : Bool} {l : List (Entry Aircraft)}
    {k : String} {v : Aircraft} {now : Nat}
    (hkv : k ≠ h ∨ v.is_new_sighting = b) (hI : FlagInv h b l) :
    FlagInv h b (updateEntry k v now l) := by
  intro e he hk
  rcases mem_updateEntry he with rfl | hold
  · rcases hkv with hk1 | hv
    · exact absurd hk hk1
    · exact hv
  · exact hI e hold hk

lemma flagInv_putT {h : String} {b : Bool} {c : TTLCache Aircraft}
    {k : String} {v : Aircraft} {now : Nat}
    (hkv : k ≠ h ∨ v.is_new_sighting = b) (hI : FlagInv h b c.entries) :
    FlagInv h b (c.putT k v now).entries := by
  rw [TTLCache.putT]
  cases hp : c.put k v now with
  | none => exact hI
  | some c1 =>
      rcases put_some_shape hp with ⟨l2, hE, rfl⟩
      have hsub : l2.Sublist c.entries :=
        (evictLoop_sublist hE).trans (purge_sublist c.ttl now c.entries)
      exact flagInv_updateEntry hkv (flagInv_sublist hsub hI)

lemma flagInv_get_snd {h : String} {b : Bool} {c : TTLCache Aircraft}
    {k : String} {now : Nat} (hI : FlagInv h b c.entries) :
    FlagInv h b ((c.get k now).2).entries := by
  rcases get_snd_entries_cases c k now with he | he
  · rw [he]; exact hI
  · rw [he]; exact flagInv_sublist (eraseKey_sublist k c.entries) hI

lemma flagInv_processOne {c : TTLCache Aircraft} {prev : List String}
    {reg : String → AircraftInfo} {now : Nat} {ac : RawAircraft} {h : String}
    (hI : FlagInv h (!(prev.contains h)) c.entries) :
    FlagInv h (!(prev.contains h)) (processOne c prev reg now ac).entries := by
  rcases ac with ⟨hx⟩
  cases hx with
  | none => exact hI
  | some h1 =>
      by_cases h1e : h1 = ""
      · subst h1e; exact hI
      · rw [processOne_some h1e]
        refine flagInv_putT ?_ (flagInv_get_snd hI)
        by_cases h1h : h1 = h
        · subst h1h; exact Or.inr rfl
        · exact Or.inl h1h

lemma flagInv_processOne_self {c : TTLCache Aircraft} {prev : List String}
    {reg : String → AircraftInfo} {now : Nat} {h : String}
    (hnd : (keysOf c.entries).Nodup) (hmax : 1 ≤ c.max_size) (hne : h ≠ "") :
    FlagInv h (!(prev.contains h)) (processOne c prev reg now ⟨some h⟩).entries := by
  rw [processOne_some hne]
  have hg : 1 ≤ ((c.get h now).2).max_size := by
    rw [(get_snd_max c h now).1]; exact hmax
  rw [putT_entries hg, putEntries]
  have hndl : (keysOf (afterEvict ((c.get h now).2) now)).Nodup := by
    refine nodup_keys_sublist ?_ (@get_snd_nodup Aircraft c h now hnd)
    exact (List.drop_sublist _ _).trans (purge_sublist _ _ _)
  intro e he hk
  rcases mem_updateEntry_nodup hndl he with rfl | ⟨_, hkey⟩
  · rfl
  · exact absurd hk hkey

lemma flagInv_mergeStep_preserve {prev : List String} {reg : String → AircraftInfo}
    {now : Nat} {h : String} :
    ∀ (obs : List RawAircraft) (c : TTLCache Aircraft),
      FlagInv h (!(prev.contains h)) c.entries →
      FlagInv h (!(prev.contains h)) (mergeStep c prev reg now obs).entries := by
  intro obs
  induction obs with
  | nil => intro c hI; exact hI
  | cons ac rest ih =>
      intro c hI
      rw [mergeStep_cons]
      exact ih _ (flagInv_processOne hI)

lemma mergeStep_flagInv {prev : List String} {reg : String → AircraftInfo}
    {now : Nat} {h : String} (hne : h ≠ "") :
    ∀ (obs : List RawAircraft) (c : TTLCache Aircraft),
      (keysOf c.entries).Nodup → 1 ≤ c.max_size →
      (∃ ac ∈ obs, ac.hex = some h) →
      FlagInv h (!(prev.contains h)) (mergeStep c prev reg now obs).entries := by
  intro obs
  induction obs with
  | nil =>
      rintro c _ _ ⟨ac, hmem, _⟩
      simp at hmem
  | cons ac rest ih =>
      rintro c hnd hmax ⟨ac1, hmem, hhex⟩
      rw [mergeStep_cons]
      rcases List.mem_cons.mp hmem with rfl | hmem1
      · have hac : ac1 = (⟨some h⟩ : RawAircraft) := by
          rcases ac1 with ⟨hx⟩
          simp only at hhex
          rw [hhex]
        rw [hac]
        exact flagInv_mergeStep_preserve rest _ (flagInv_processOne_self hnd hmax hne)
      · have hf := processOne_fields c prev reg now ac
        exact ih (processOne c prev reg now ac) (processOne_nodup hnd)
          (by rw [hf.1]; exact hmax) ⟨ac1, hmem1, hhex⟩

/-- C4: the merge step stamps every observed identifier's cache entry with
`is_new_sighting = (identifier not in previously_seen_hexes)` — membership
in the previous cycle's observed set, independent of cache presence (the
right-hand side mentions only `prevSeen`); in particular an identifier
present in both cycles gets `false`.  The second conjunct: every cycle ends
by recording the current observed set as the next cycle's
`previously_seen_hexes`. -/
theorem c4_sighting_classification :
    (∀ (cache : TTLCache Aircraft) (prevSeen : List String)
        (registry : String → AircraftInfo) (now : Nat)
        (observed : List RawAircraft) (h : String),
        (keysOf cache.entries).Nodup → 1 ≤ cache.max_size →
        (∃ ac ∈ observed, ac.hex = some h) → h ≠ "" →
        ∀ e ∈ (mergeStep cache prevSeen registry now observed).entries,
          e.key = h → e.value.is_new_sighting = !(prevSeen.contains h)) ∧
    (∀ (st : LoggerState) (now : Nat) (observed : List RawAircraft)
        (registry : String → AircraftInfo) (uploadSucceeds : Bool),
        (runCycle st now observed registry uploadSucceeds).1.previously_seen_hexes =
          currentHexes observed) := by
  constructor
  · intro cache prevSeen registry now observed h hnd hmax hex hne
    exact mergeStep_flagInv hne observed cache hnd hmax hex
  · intro st now observed registry uploadSucceeds
    rw [runCycle]
    by_cases h1 : uploadAttempted st now observed registry = true
    · rw [if_pos h1]
      cases uploadSucceeds with
      | true => rfl
      | false => rfl
    · rw [if_neg h1]

/-- Witness for C4: a fresh identifier "BBB" absent from the previous
cycle's set gets flag `!contains = true` on every entry it leaves in the
cache. -/
theorem c4_sighting_classification_witness :
    ∀ e ∈ (mergeStep ⟨[], 3, 100⟩ ["AAA"] (fun _ => emptyInfo) 50
        [⟨some "BBB"⟩]).entries,
      e.key = "BBB" → e.value.is_new_sighting = !(List.contains ["AAA"] "BBB") :=
  c4_sighting_classification.1 ⟨[], 3, 100⟩ ["AAA"] (fun _ => emptyInfo) 50
    [⟨some "BBB"⟩] "BBB" (by decide) (by decide)
    ⟨⟨some "BBB"⟩, by simp, rfl⟩ (by decide)

/-! ### Claim C5 -/

/-- C5: when the merge loop processes an observed identifier `h`, the record
it stores keeps the cached `first_seen` unchanged whenever `h` is still in
the TTL cache (`get` returned the cached record), and gets
`first_seen = now` (the time of the current observation) whenever `h` is
absent from the cache at merge time — truly new, or evicted/expired since
last seen (`get` returned `None`). -/
theorem c5_first_seen_preservation :
    ∀ (cache : TTLCache Aircraft) (prevSeen : List String)
      (registry : String → AircraftInfo) (now : Nat) (h : String),
      h ≠ "" → 1 ≤ cache.max_size →
      ((∀ a : Aircraft, (cache.get h now).1 = some a →
          ∃ e, findKey (processOne cache prevSeen registry now ⟨some h⟩).entries h =
              some e ∧
            e.value.first_seen = a.first_seen ∧ e.stamp = now) ∧
       ((cache.get h now).1 = none →
          ∃ e, findKey (processOne cache prevSeen registry now ⟨some h⟩).entries h =
              some e ∧
            e.value.first_seen = now ∧ e.stamp = now)) := by
  intro cache prevSeen registry now h hne hmax
  have hg : 1 ≤ ((cache.get h now).2).max_size := by
    rw [(get_snd_max cache h now).1]; exact hmax
  have hfind : findKey (processOne cache prevSeen registry now ⟨some h⟩).entries h =
      some ⟨h, mergedRecord cache prevSeen registry now h, now⟩ := by
    rw [processOne_some hne, putT_entries hg, putEntries]
    exact findKey_updateEntry_self h _ now _
  constructor
  · intro a ha
    refine ⟨_, hfind, ?_, rfl⟩
    show (mergedRecord cache prevSeen registry now h).first_seen = a.first_seen
    show (match (cache.get h now).1 with
      | some cached => cached.first_seen
      | none => now) = a.first_seen
    rw [ha]
  · intro ha
    refine ⟨_, hfind, ?_, rfl⟩
    show (mergedRecord cache prevSeen registry now h).first_seen = now
    show (match (cache.get h now).1 with
      | some cached => cached.first_seen
      | none => now) = now
    rw [ha]

/-- Witness for C5: identifier "AAA" is still cached (first_seen 42, put at
time 0, TTL 100, re-observed at time 50), and the merged record carries
first_seen 42 forward. -/
theorem c5_first_seen_preservation_witness :
    ∃ e, findKey (processOne ⟨[⟨"AAA", ⟨"AAA", none, none, none, 42, false⟩, 0⟩], 3, 100⟩
        [] (fun _ => emptyInfo) 50 ⟨some "AAA"⟩).entries "AAA" = some e ∧
      e.value.first_seen = 42 ∧ e.stamp = 50 :=
  (c5_first_seen_preservation ⟨[⟨"AAA", ⟨"AAA", none, none, none, 42, false⟩, 0⟩], 3, 100⟩
      [] (fun _ => emptyInfo) 50 "AAA" (by decide) (by decide)).1
    ⟨"AAA", none, none, none, 42, false⟩ (by decide)

/-! ### Claim C6 -/

lemma runCycle_snd (st : LoggerState) (now : Nat) (observed : List RawAircraft)
    (registry : String → AircraftInfo) (up : Bool) :
    (runCycle st now observed registry up).2 = uploadAttempted st now observed registry := by
  rw [runCycle]
  by_cases h : uploadAttempted st now observed registry = true
  · rw [if_pos h, h]
    cases up with
    | true => rfl
    | false => rfl
  · rw [if_neg h]
    simp only [Bool.not_eq_true] at h
    exact h.symm

/-- C6 counterexample: with an empty cache and the configured interval
elapsed (state: last commit at 0, first baseline commit already done,
`now = 300 = SUMMARY_UPLOAD_INTERVAL`), disjunct (a) of the claim holds but
the code does not trigger the commit — `should_upload` is anded with
`cache_size > 0` at line 1395, so the claimed "commit is triggered exactly
when (a) or (b) or (c)" is false at this input. -/
theorem c6_upload_decision_counterexample :
    ¬ ((runCycle ⟨⟨[], 200, 3600⟩, [], 0, true⟩ 300 [] (fun _ => emptyInfo) true).2 = true ↔
        (0 + SUMMARY_UPLOAD_INTERVAL ≤ 300 ∨
         MAX_CACHE_SIZE ≤ cycleCacheSize ⟨⟨[], 200, 3600⟩, [], 0, true⟩ 300 [] (fun _ => emptyInfo) ∨
         ((true : Bool) = false ∧
          0 < cycleCacheSize ⟨⟨[], 200, 3600⟩, [], 0, true⟩ 300 [] (fun _ => emptyInfo)))) := by
  decide

/-- C6 amended: the commit step is triggered exactly when the cache
(after merge and purge) is NONEMPTY and at least one of (a) the configured
interval has elapsed since the last successful commit, (b) the purged cache
size is at least the configured capacity, (c) the initial baseline commit is
still pending and the cache is nonempty. -/
theorem c6_upload_decision_amended :
    ∀ (st : LoggerState) (now : Nat) (observed : List RawAircraft)
      (registry : String → AircraftInfo) (uploadSucceeds : Bool),
      ((runCycle st now observed registry uploadSucceeds).2 = true ↔
        ((st.last_summary_upload_time + SUMMARY_UPLOAD_INTERVAL ≤ now ∨
          MAX_CACHE_SIZE ≤ cycleCacheSize st now observed registry ∨
          (st.first_scan_complete = false ∧
           0 < cycleCacheSize st now observed registry)) ∧
         0 < cycleCacheSize st now observed registry)) := by
  intro st now observed registry uploadSucceeds
  rw [runCycle_snd, uploadAttempted, shouldUpload]
  simp only [Bool.and_eq_true, Bool.or_eq_true, decide_eq_true_eq, Bool.not_eq_true']
  tauto

/-- Witness for C6's amended theorem: one nonempty-cache state with the
interval elapsed does trigger the commit. -/
theorem c6_upload_decision_amended_witness :
    (runCycle ⟨⟨[⟨"AAA", ⟨"AAA", none, none, none, 1, true⟩, 299⟩], 200, 3600⟩, [], 0, true⟩
        300 [] (fun _ => emptyInfo) true).2 = true :=
  (c6_upload_decision_amended
    ⟨⟨[⟨"AAA", ⟨"AAA", none, none, none, 1, true⟩, 299⟩], 200, 3600⟩, [], 0, true⟩
    300 [] (fun _ => emptyInfo) true).mpr (by decide)

/-! ### Claim C9 -/

/-- The effect of one pass of the post-commit loop on one entry: flag
cleared and timestamp refreshed to the commit time. -/
def clearEntry (now : Nat) (e : Entry Aircraft) : Entry Aircraft :=
  ⟨e.key, { e.value with is_new_sighting := false }, now⟩

/-- The post-commit loop as a fold over entry records. -/
def clearFold (now : Nat) (c : TTLCache Aircraft) (l : List (Entry Aircraft)) :
    TTLCache Aircraft :=
  l.foldl (fun acc e => acc.putT e.key { e.value with is_new_sighting := false } now) c

lemma clearFold_cons (now : Nat) (c : TTLCache Aircraft) (e : Entry Aircraft)
    (rest : List (Entry Aircraft)) :
    clearFold now c (e :: rest) =
      clearFold now (c.putT e.key { e.value with is_new_sighting := false } now) rest := rfl

lemma clearNewSightingFlags_eq_fold (c : TTLCache Aircraft) (now : Nat) :
    clearNewSightingFlags c now =
      clearFold now { c with entries := purge c.ttl now c.entries }
        (purge c.ttl now c.entries) := by
  rw [clearNewSightingFlags, TTLCache.items]
  exact List.foldl_map _ _ _ _

lemma keysOf_map_clearEntry (now : Nat) (l : List (Entry Aircraft)) :
    keysOf (l.map (clearEntry now)) = keysOf l := by
  simp only [keysOf, List.map_map]
  exact List.map_congr_left (fun e _ => rfl)

lemma putT_step_lt {c : TTLCache Aircraft} {k : String} {v : Aircraft} {now : Nat}
    (hfresh : ∀ x ∈ c.entries, ¬ (x.stamp + c.ttl < now))
    (hlt : c.entries.length < c.max_size) :
    c.putT k v now = { c with entries := updateEntry k v now c.entries } := by
  rw [putT_eq (by omega), putEntries, afterEvict, purge_eq_self hfresh,
    show c.entries.length + 1 - c.max_size = 0 from by omega, List.drop_zero]

lemma putT_step_full {c : TTLCache Aircraft} {k : String} {v : Aircraft} {now : Nat}
    (hfresh : ∀ x ∈ c.entries, ¬ (x.stamp + c.ttl < now))
    (heq : c.entries.length = c.max_size) (hmax : 1 ≤ c.max_size) :
    c.putT k v now = { c with entries := updateEntry k v now (c.entries.drop 1) } := by
  rw [putT_eq hmax, putEntries, afterEvict, purge_eq_self hfresh,
    show c.entries.length + 1 - c.max_size = 1 from by omega]

lemma clearFold_below_cap (now : Nat) :
    ∀ (rest done : List (Entry Aircraft)) (c : TTLCache Aircraft),
      c.entries = done.map (clearEntry now) ++ rest →
      (keysOf done ++ keysOf rest).Nodup →
      done.length + rest.length < c.max_size →
      (∀ e ∈ rest, ¬ (e.stamp + c.ttl < now)) →
      clearFold now c rest = { c with entries := ((done ++ rest).map (clearEntry now)) } := by
  intro rest
  induction rest with
  | nil =>
      intro done c hent hnd hlen hfresh
      rcases c with ⟨ce, cm, ct⟩
      simp only at hent
      rw [clearFold, List.foldl_nil]
      simp only [List.append_nil] at hent ⊢
      rw [hent]
  | cons e rest1 ih =>
      intro done c hent hnd hlen hfresh
      have hfreshAll : ∀ x ∈ c.entries, ¬ (x.stamp + c.ttl < now) := by
        rw [hent]
        intro x hx
        rcases List.mem_append.mp hx with hx | hx
        · rcases List.mem_map.mp hx with ⟨y, _, rfl⟩
          show ¬ (now + c.ttl < now)
          omega
        · exact hfresh x hx
      have hlen2 : c.entries.length < c.max_size := by
        rw [hent]
        simp only [List.length_append, List.length_map, List.length_cons]
        simp only [List.length_cons] at hlen
        omega
      have hkey : e.key ∉ keysOf (done.map (clearEntry now)) := by
        rw [keysOf_map_clearEntry]
        intro hmem
        exact List.disjoint_of_nodup_append hnd hmem (by simp [keysOf])
      have hstep : c.putT e.key { e.value with is_new_sighting := false } now =
          { c with entries := (((done ++ [e]).map (clearEntry now)) ++ rest1) } := by
        rw [putT_step_lt hfreshAll hlen2, hent,
          updateEntry_append_cons _ now e hkey rfl]
        rw [List.map_append, List.append_assoc]
        rfl
      rw [clearFold_cons, hstep]
      have hnd2 : (keysOf (done ++ [e]) ++ keysOf rest1).Nodup := by
        have : keysOf (done ++ [e]) ++ keysOf rest1 = keysOf done ++ keysOf (e :: rest1) := by
          simp [keysOf, List.append_assoc]
        rw [this]
        exact hnd
      have hlen3 : (done ++ [e]).length + rest1.length <
          ({ c with entries := (((done ++ [e]).map (clearEntry now)) ++ rest1) } :
            TTLCache Aircraft).max_size := by
        show (done ++ [e]).length + rest1.length < c.max_size
        simp only [List.length_append, List.length_singleton]
        simp only [List.length_cons] at hlen
        omega
      have := ih (done ++ [e])
        { c with entries := (((done ++ [e]).map (clearEntry now)) ++ rest1) }
        rfl hnd2 hlen3 (fun x hx => hfresh x (by simp [hx]))
      rw [this]
      rw [show (done ++ [e]) ++ rest1 = done ++ e :: rest1 from
        (List.append_cons done e rest1).symm]

lemma clearFold_at_cap (now : Nat) :
    ∀ (rest done : List (Entry Aircraft)) (c : TTLCache Aircraft),
      c.entries = rest ++ done.map (clearEntry now) →
      (keysOf rest ++ keysOf done).Nodup →
      rest.length + done.length = c.max_size →
      1 ≤ c.max_size →
      (∀ e ∈ rest, ¬ (e.stamp + c.ttl < now)) →
      clearFold now c rest = { c with entries := ((done ++ rest).map (clearEntry now)) } := by
  intro rest
  induction rest with
  | nil =>
      intro done c hent hnd hlen hmax hfresh
      rcases c with ⟨ce, cm, ct⟩
      simp only at hent
      rw [clearFold, List.foldl_nil]
      simp only [List.nil_append] at hent ⊢
      simp only [List.append_nil]
      rw [hent]
  | cons e rest1 ih =>
      intro done c hent hnd hlen hmax hfresh
      have hfreshAll : ∀ x ∈ c.entries, ¬ (x.stamp + c.ttl < now) := by
        rw [hent]
        intro x hx
        rcases List.mem_append.mp hx with hx | hx
        · exact hfresh x hx
        · rcases List.mem_map.mp hx with ⟨y, _, rfl⟩
          show ¬ (now + c.ttl < now)
          omega
      have hlen2 : c.entries.length = c.max_size := by
        rw [hent]
        simp only [List.length_append, List.length_map, List.length_cons]
        simp only [List.length_cons] at hlen
        omega
      have hdrop : c.entries.drop 1 = rest1 ++ done.map (clearEntry now) := by
        rw [hent]
        rfl
      have hndc : (e.key :: (keysOf rest1 ++ keysOf done)).Nodup := by
        have : e.key :: (keysOf rest1 ++ keysOf done) =
            keysOf (e :: rest1) ++ keysOf done := by
          simp [keysOf]
        rw [this]
        exact hnd
      have hkey : e.key ∉ keysOf (rest1 ++ done.map (clearEntry now)) := by
        intro hmem
        have : e.key ∈ keysOf rest1 ++ keysOf done := by
          have hsplit : keysOf (rest1 ++ done.map (clearEntry now)) =
              keysOf rest1 ++ keysOf done := by
            simp only [keysOf, List.map_append]
            rw [show List.map Entry.key (done.map (clearEntry now)) = List.map Entry.key done from
              keysOf_map_clearEntry now done]
          rwa [hsplit] at hmem
        exact (List.nodup_cons.mp hndc).1 this
      have hstep : c.putT e.key { e.value with is_new_sighting := false } now =
          { c with entries := (rest1 ++ ((done ++ [e]).map (clearEntry now))) } := by
        rw [putT_step_full hfreshAll hlen2 hmax, hdrop,
          updateEntry_absent _ now hkey]
        rw [List.map_append, List.append_assoc]
        rfl
      rw [clearFold_cons, hstep]
      have hnd2 : (keysOf rest1 ++ keysOf (done ++ [e])).Nodup := by
        have hshape : keysOf rest1 ++ keysOf (done ++ [e]) =
            (keysOf rest1 ++ keysOf done) ++ [e.key] := by
          simp [keysOf, List.append_assoc]
        rw [hshape]
        exact (List.perm_append_singleton e.key (keysOf rest1 ++ keysOf done)).symm.nodup hndc
      have hlen3 : rest1.length + (done ++ [e]).length =
          ({ c with entries := (rest1 ++ ((done ++ [e]).map (clearEntry now))) } :
            TTLCache Aircraft).max_size := by
        show rest1.length + (done ++ [e]).length = c.max_size
        simp only [List.length_append, List.length_singleton]
        simp only [List.length_cons] at hlen
        omega
      have := ih (done ++ [e])
        { c with entries := (rest1 ++ ((done ++ [e]).map (clearEntry now))) }
        rfl hnd2 hlen3 hmax (fun x hx => hfresh x (by simp [hx]))
      rw [this]
      rw [show (done ++ [e]) ++ rest1 = done ++ e :: rest1 from
        (List.append_cons done e rest1).symm]

lemma clearNewSightingFlags_entries {c : TTLCache Aircraft} {now : Nat}
    (hnd : (keysOf c.entries).Nodup) (hle : c.entries.length ≤ c.max_size)
    (hmax : 1 ≤ c.max_size) :
    (clearNewSightingFlags c now).entries =
      (purge c.ttl now c.entries).map (clearEntry now) := by
  rw [clearNewSightingFlags_eq_fold]
  have hfresh : ∀ e ∈ purge c.ttl now c.entries, ¬ (e.stamp + c.ttl < now) :=
    fun e he => (mem_purge he).2
  have hndp : (keysOf (purge c.ttl now c.entries)).Nodup :=
    nodup_keys_sublist (purge_sublist c.ttl now c.entries) hnd
  have hlep : (purge c.ttl now c.entries).length ≤ c.max_size :=
    le_trans (purge_sublist c.ttl now c.entries).length_le hle
  rcases Nat.lt_or_ge (purge c.ttl now c.entries).length c.max_size with hlt | hge
  · have := clearFold_below_cap now (purge c.ttl now c.entries) []
      { c with entries := purge c.ttl now c.entries }
      (by simp) (by simpa [keysOf] using hndp) (by simpa using hlt)
      (fun e he => hfresh e he)
    rw [this]
    simp
  · have heq : (purge c.ttl now c.entries).length = c.max_size := le_antisymm hlep hge
    have := clearFold_at_cap now (purge c.ttl now c.entries) []
      { c with entries := purge c.ttl now c.entries }
      (by simp) (by simpa [keysOf] using hndp) (by simpa using heq) hmax
      (fun e he => hfresh e he)
    rw [this]
    simp

/-- C9: on a cycle whose commit succeeds, the post-commit step re-`put`s
every cached entry with `is_new_sighting` cleared, and each such `put`
refreshes the entry's TTL timestamp to the commit time.  Conjunct 1 gives
the exact cache contents after the reset: every surviving (unexpired) entry,
in order, re-stamped at `now` with the flag cleared — none lost.  Conjunct 2
lifts this to the cycle: after a successful triggered commit at time `now`,
EVERY entry in the cache has timestamp `now` and flag `false`, even entries
last observed long before the commit — the idle-expiry clock of every cached
entity restarts at the commit time. -/
theorem c9_commit_resets_idle_clock :
    (∀ (c : TTLCache Aircraft) (now : Nat),
        (keysOf c.entries).Nodup → c.entries.length ≤ c.max_size →
        1 ≤ c.max_size →
        (clearNewSightingFlags c now).entries =
          (purge c.ttl now c.entries).map (clearEntry now)) ∧
    (∀ (st : LoggerState) (now : Nat) (observed : List RawAircraft)
        (registry : String → AircraftInfo),
        (keysOf st.local_aircraft_cache.entries).Nodup →
        st.local_aircraft_cache.entries.length ≤ st.local_aircraft_cache.max_size →
        1 ≤ st.local_aircraft_cache.max_size →
        (runCycle st now observed registry true).2 = true →
        ∀ e ∈ (runCycle st now observed registry true).1.local_aircraft_cache.entries,
          e.stamp = now ∧ e.value.is_new_sighting = false) := by
  constructor
  · intro c now hnd hle hmax
    exact clearNewSightingFlags_entries hnd hle hmax
  · intro st now observed registry hnd hle hmax hatt e he
    rw [runCycle_snd] at hatt
    rw [runCycle, if_pos hatt, if_pos rfl] at he
    have h1 : (keysOf (cacheAfterMerge st now observed registry).entries).Nodup :=
      mergeStep_nodup observed _ hnd
    have h2 : ((cacheAfterItems st now observed registry).entries).Sublist
        ((cacheAfterMerge st now observed registry).entries) :=
      (purge_sublist _ _ _).trans ((purge_sublist _ _ _).trans (purge_sublist _ _ _))
    have hci_max : (cacheAfterItems st now observed registry).max_size =
        st.local_aircraft_cache.max_size :=
      (mergeStep_fields st.previously_seen_hexes registry now observed
        st.local_aircraft_cache).1
    have hci_nd : (keysOf (cacheAfterItems st now observed registry).entries).Nodup :=
      nodup_keys_sublist h2 h1
    have hci_le : (cacheAfterItems st now observed registry).entries.length ≤
        (cacheAfterItems st now observed registry).max_size := by
      rw [hci_max]
      exact le_trans h2.length_le
        (mergeStep_length_le observed st.local_aircraft_cache hmax hle)
    have hmax4 : 1 ≤ (cacheAfterItems st now observed registry).max_size := by
      rw [hci_max]; exact hmax
    rw [clearNewSightingFlags_entries hci_nd hci_le hmax4] at he
    rcases List.mem_map.mp he with ⟨y, _, rfl⟩
    exact ⟨rfl, rfl⟩

/-- Witness for C9: a single entry last re-put at time 10 is re-stamped to
the commit time 300 with its flag cleared by the successful initial commit. -/
theorem c9_commit_resets_idle_clock_witness :
    ∀ e ∈ (runCycle ⟨⟨[⟨"AAA", ⟨"AAA", none, none, none, 1, true⟩, 10⟩], 200, 3600⟩,
        [], 0, false⟩ 300 [] (fun _ => emptyInfo) true).1.local_aircraft_cache.entries,
      e.stamp = 300 ∧ e.value.is_new_sighting = false :=
  c9_commit_resets_idle_clock.2
    ⟨⟨[⟨"AAA", ⟨"AAA", none, none, none, 1, true⟩, 10⟩], 200, 3600⟩, [], 0, false⟩
    300 [] (fun _ => emptyInfo) (by decide) (by decide) (by decide) (by decide)

end ADSB
